import Mathlib

/-!
# HARDS — hierarchical arbitrary data storage: verification of the core contract

The repository ships only the documentation, examples and packaging of the
`hards` package; the engine itself (`hards.api` / `hards.filesystem`) is not
part of the sources available here.  Every definition below is therefore
modelled from the specification document (`spec.md`) and cross-checked
against the example notebooks and the API documentation, which exercise the
same operations.

The model covers: name validation, the insertion-ordered `data` mapping and
its `add_data` merge, the Database/Dataset/Datapoint tree, shallow and deep
path resolution, ancestor-chain datapoint inheritance
(`recursively_get_datapoints`), the file store (`add_file` / `get_file`),
and a persistence layer (serialisation of the tree to an on-disk directory
structure and re-hydration from it).
-/

namespace HARDS

/-- Modelled from the spec: JSON-serialisable values stored in a node's
`data` mapping (spec §3: scalars, strings, ordered sequences, nested
mappings); values are opaque to the engine. -/
inductive JValue where
  | null : JValue
  | bool (b : Bool) : JValue
  | num (n : Int) : JValue
  | str (s : String) : JValue
  | arr (elems : List JValue) : JValue
  | obj (fields : List (String × JValue)) : JValue

/-- File contents are opaque byte sequences. -/
abbrev Bytes := List Nat

/-- Lookup of one key in an insertion-ordered association list, the model of
reading one key of a Python `dict`. -/
def getKey {α : Type} : List (String × α) → String → Option α
  | [], _ => none
  | (k', v) :: rest, k => if k' == k then some v else getKey rest k

/-- Modelled from the spec: writing one key of an insertion-ordered mapping
(spec §3 invariant: re-adding an existing key replaces only that key's
value in place; a fresh key is appended, preserving insertion order). -/
def setKey {α : Type} : List (String × α) → String → α → List (String × α)
  | [], k, v => [(k, v)]
  | (k', v') :: rest, k, v =>
      if k' == k then (k, v) :: rest else (k', v') :: setKey rest k v

/-- Modelled from the spec: `add_data(mapping)` merges `mapping` into the
node's own `data` by key (spec §4.3), key by key in the mapping's
insertion order, exactly as Python's `dict.update`. -/
def add_data {α : Type} (d : List (String × α)) : List (String × α) → List (String × α)
  | [] => d
  | (k, v) :: rest => add_data (setKey d k v) rest

/-- The keys of a mapping are pairwise distinct — the invariant every
Python `dict` argument of `add_data` satisfies by construction. -/
def keysNodup {α : Type} (l : List (String × α)) : Prop :=
  (l.map Prod.fst).Nodup

instance {α : Type} (l : List (String × α)) : Decidable (keysNodup l) := by
  unfold keysNodup; infer_instance

/-- Modelled from the spec: the legal character set for entity names
(spec §4.1): ASCII letters (codes 65–90 and 97–122), digits (48–57),
`.` (46), `-` (45) and `_` (95). -/
def allowedChar (c : Char) : Bool :=
  (65 ≤ c.toNat && c.toNat ≤ 90) || (97 ≤ c.toNat && c.toNat ≤ 122) ||
    (48 ≤ c.toNat && c.toNat ≤ 57) || c.toNat == 46 || c.toNat == 45 || c.toNat == 95

/-- Modelled from the spec: `validate(name)` (spec §4.1) accepts exactly the
non-empty strings all of whose characters are in the allowed set. -/
def validate (s : String) : Bool :=
  !s.data.isEmpty && s.data.all allowedChar

-- ### Association-list lemmas

theorem getKey_setKey_self {α : Type} (l : List (String × α)) (k : String) (v : α) :
    getKey (setKey l k v) k = some v := by
  induction l with
  | nil => simp [setKey, getKey]
  | cons p rest ih =>
      obtain ⟨k', v'⟩ := p
      by_cases h : (k' == k) = true
      · simp [setKey, h, getKey]
      · simp [setKey, h, getKey, ih]

theorem getKey_setKey_ne {α : Type} (l : List (String × α)) (k k' : String) (v : α)
    (h : k' ≠ k) : getKey (setKey l k v) k' = getKey l k' := by
  have hkk : (k == k') = false := by simpa [beq_eq_false_iff_ne] using h.symm
  induction l with
  | nil => simp [setKey, getKey, hkk]
  | cons p rest ih =>
      obtain ⟨k₀, v₀⟩ := p
      by_cases h0 : (k₀ == k) = true
      · have hk0 : k₀ = k := by simpa using h0
        subst hk0
        simp [setKey, getKey, hkk]
      · simp [setKey, h0, getKey, ih]

theorem getKey_eq_none_of_not_mem {α : Type} (l : List (String × α)) (k : String)
    (h : k ∉ l.map Prod.fst) : getKey l k = none := by
  induction l with
  | nil => simp [getKey]
  | cons p rest ih =>
      simp only [List.map_cons, List.mem_cons] at h
      push_neg at h
      have : (p.1 == k) = false := by simpa [beq_eq_false_iff_ne] using (h.1 ∘ Eq.symm)
      obtain ⟨k₀, v₀⟩ := p
      simp only [getKey]
      simp only at this
      simp [this, ih h.2]

theorem getKey_add_data_of_none {α : Type} :
    ∀ (m d : List (String × α)) (k : String), getKey m k = none →
      getKey (add_data d m) k = getKey d k
  | [], _, _, _ => rfl
  | (k₁, v₁) :: rest, d, k, h => by
      by_cases h1 : (k₁ == k) = true
      · simp [getKey, h1] at h
      · simp only [getKey, h1, Bool.false_eq_true, if_false] at h
        have hne : k ≠ k₁ := fun he => by simp [he] at h1
        rw [add_data, getKey_add_data_of_none rest (setKey d k₁ v₁) k h,
          getKey_setKey_ne d k₁ k v₁ hne]

theorem getKey_add_data_of_some {α : Type} :
    ∀ (m d : List (String × α)) (k : String) (v : α), keysNodup m →
      getKey m k = some v → getKey (add_data d m) k = some v
  | [], _, _, _, _, h => by simp [getKey] at h
  | (k₁, v₁) :: rest, d, k, v, hm, h => by
      have hm' : keysNodup rest ∧ k₁ ∉ rest.map Prod.fst := by
        constructor
        · simpa [keysNodup] using (List.nodup_cons.mp hm).2
        · exact (List.nodup_cons.mp hm).1
      by_cases h1 : (k₁ == k) = true
      · have hk : k₁ = k := by simpa using h1
        subst hk
        have hv : v₁ = v := by simpa [getKey] using h
        have hnone : getKey rest k₁ = none :=
          getKey_eq_none_of_not_mem rest k₁ hm'.2
        rw [add_data, getKey_add_data_of_none rest (setKey d k₁ v₁) k₁ hnone,
          getKey_setKey_self, hv]
      · simp only [getKey, h1, Bool.false_eq_true, if_false] at h
        rw [add_data]
        exact getKey_add_data_of_some rest (setKey d k₁ v₁) k v hm'.1 h

-- ### Claim C2 — add_data merge semantics

/-- **C2.** For every node data `d0` and two successive `add_data` calls with
mappings `m1` then `m2` (each a well-formed dict, i.e. with distinct keys):
afterwards every key of `m2` maps to `m2`'s value, every key of `m1` not in
`m2` maps to `m1`'s value, and every other key keeps its prior value from
`d0` — so overlapping keys are last-write-wins and no key is lost. -/
theorem add_data_twice_merge {α : Type} (d0 m1 m2 : List (String × α))
    (h1 : keysNodup m1) (h2 : keysNodup m2) :
    (∀ k v, getKey m2 k = some v → getKey (add_data (add_data d0 m1) m2) k = some v) ∧
    (∀ k v, getKey m2 k = none → getKey m1 k = some v →
      getKey (add_data (add_data d0 m1) m2) k = some v) ∧
    (∀ k, getKey m2 k = none → getKey m1 k = none →
      getKey (add_data (add_data d0 m1) m2) k = getKey d0 k) := by
  refine ⟨fun k v hv => getKey_add_data_of_some m2 _ k v h2 hv,
    fun k v h2n h1v => ?_, fun k h2n h1n => ?_⟩
  · rw [getKey_add_data_of_none m2 _ k h2n]
    exact getKey_add_data_of_some m1 d0 k v h1 h1v
  · rw [getKey_add_data_of_none m2 _ k h2n, getKey_add_data_of_none m1 d0 k h1n]

/-- Witness for C2, mirroring the introduction notebook: after
`add_data({"version": 1, "cost": 2})` then `add_data({"version": 3})`,
`version` reads `3`, `cost` reads `2`, and an untouched prior key survives. -/
theorem add_data_twice_merge_witness :
    getKey (add_data (add_data [("owner", JValue.str "you")]
        [("version", JValue.num 1), ("cost", JValue.num 2)]
        : List (String × JValue)) [("version", JValue.num 3)]) "version"
        = some (JValue.num 3) ∧
    getKey (add_data (add_data [("owner", JValue.str "you")]
        [("version", JValue.num 1), ("cost", JValue.num 2)]
        : List (String × JValue)) [("version", JValue.num 3)]) "cost"
        = some (JValue.num 2) ∧
    getKey (add_data (add_data [("owner", JValue.str "you")]
        [("version", JValue.num 1), ("cost", JValue.num 2)]
        : List (String × JValue)) [("version", JValue.num 3)]) "owner"
        = getKey [("owner", JValue.str "you")] "owner" := by
  have h := add_data_twice_merge [("owner", JValue.str "you")]
    [("version", JValue.num 1), ("cost", JValue.num 2)] [("version", JValue.num 3)]
    (by decide) (by decide)
  exact ⟨h.1 "version" (JValue.num 3) rfl, h.2.1 "cost" (JValue.num 2) rfl rfl,
    h.2.2 "owner" rfl rfl⟩

-- ### Claim C7 — name validation

theorem char_eq_iff_toNat (c d : Char) : c = d ↔ c.toNat = d.toNat :=
  ⟨fun h => h ▸ rfl, fun h => Char.ext (UInt32.ext h)⟩

theorem isAlpha_iff_toNat (c : Char) :
    c.isAlpha = true ↔ (65 ≤ c.toNat ∧ c.toNat ≤ 90) ∨ (97 ≤ c.toNat ∧ c.toNat ≤ 122) := by
  simp only [Char.isAlpha, Char.isUpper, Char.isLower, Bool.or_eq_true,
    Bool.and_eq_true, decide_eq_true_eq]
  exact Iff.rfl

theorem isDigit_iff_toNat (c : Char) :
    c.isDigit = true ↔ 48 ≤ c.toNat ∧ c.toNat ≤ 57 := by
  simp only [Char.isDigit, Bool.and_eq_true, decide_eq_true_eq]
  exact Iff.rfl

theorem allowedChar_iff (c : Char) :
    allowedChar c = true ↔
      (c.isAlpha = true ∨ c.isDigit = true ∨ c = '.' ∨ c = '-' ∨ c = '_') := by
  have h46 : ('.' : Char).toNat = 46 := rfl
  have h45 : ('-' : Char).toNat = 45 := rfl
  have h95 : ('_' : Char).toNat = 95 := rfl
  simp only [allowedChar, Bool.or_eq_true, Bool.and_eq_true, decide_eq_true_eq,
    beq_iff_eq, isAlpha_iff_toNat, isDigit_iff_toNat, char_eq_iff_toNat, h46, h45, h95]
  omega

/-- **C7.** `validate` accepts a string iff it is non-empty and every
character is an ASCII letter, an ASCII digit, `.`, `-` or `_`; consequently
the empty string is rejected, and so is any string containing a path
separator (`/` or `\`) or whitespace. -/
theorem validate_charset (s : String) :
    (validate s = true ↔
      s.data ≠ [] ∧ ∀ c ∈ s.data,
        (c.isAlpha = true ∨ c.isDigit = true ∨ c = '.' ∨ c = '-' ∨ c = '_')) ∧
    (validate "" = false) ∧
    (('/' ∈ s.data ∨ '\\' ∈ s.data ∨ ' ' ∈ s.data ∨ '\t' ∈ s.data) →
      validate s = false) := by
  refine ⟨?_, by decide, fun h => ?_⟩
  · simp only [validate, Bool.and_eq_true, Bool.not_eq_true', List.isEmpty_eq_false,
      List.all_eq_true]
    exact and_congr (Iff.rfl) (forall₂_congr fun c _ => allowedChar_iff c)
  · by_contra hv
    simp only [Bool.not_eq_false] at hv
    simp only [validate, Bool.and_eq_true, List.all_eq_true] at hv
    rcases h with h | h | h | h <;>
      · have := (allowedChar_iff _).mp (hv.2 _ h)
        simp [Char.isAlpha, Char.isUpper, Char.isLower, Char.isDigit] at this

/-- Witness for C7: `"my-file_1.txt"` is accepted; `""`, `"a/b"` and
`"a b"` are rejected. -/
theorem validate_charset_witness :
    validate "my-file_1.txt" = true ∧ validate "" = false ∧
    validate "a/b" = false ∧ validate "a b" = false := by
  refine ⟨?_, (validate_charset "").2.1, ?_, ?_⟩
  · exact (validate_charset "my-file_1.txt").1.mpr (by decide)
  · exact (validate_charset "a/b").2.2 (Or.inl (by decide))
  · exact (validate_charset "a b").2.2 (Or.inr (Or.inr (Or.inl (by decide))))

-- ### The entity model: Database / Dataset / Datapoint

/-- Modelled from the spec: a Datapoint is a leaf owning `data` and `files`
and nothing else (spec §3). -/
structure Datapoint where
  name : String
  data : List (String × JValue)
  files : List (String × Bytes)

/-- Modelled from the spec: a Dataset is an internal node owning `data`,
`files`, an ordered list of child Datasets and an ordered list of child
Datapoints (spec §3); the list order is creation order, because children
are only ever appended by `create_dataset` / `create_datapoint`. -/
inductive Dataset where
  | mk (name : String) (data : List (String × JValue)) (files : List (String × Bytes))
      (datasets : List Dataset) (datapoints : List Datapoint) : Dataset

def Dataset.name : Dataset → String
  | .mk n _ _ _ _ => n

def Dataset.data : Dataset → List (String × JValue)
  | .mk _ dt _ _ _ => dt

def Dataset.files : Dataset → List (String × Bytes)
  | .mk _ _ fs _ _ => fs

def Dataset.datasets : Dataset → List Dataset
  | .mk _ _ _ ds _ => ds

def Dataset.datapoints : Dataset → List Datapoint
  | .mk _ _ _ _ ps => ps

/-- Modelled from the spec: the Database is the root, owning only its
top-level Datasets — it has no data, files or datapoints of its own
(spec §3: "has no data/files of its own"). -/
structure Database where
  datasets : List Dataset

/-- Modelled from the spec: the error taxonomy of §7. -/
inductive HardsError where
  | invalidName (name : String)
  | nameConflict (name : String)
  | notFound (name : String)
  | alreadyExists (location : String)
  | corruptState

/-- Shallow direct-child Dataset lookup (`get_dataset`, spec §4.3):
case-sensitive exact match on the child's name. -/
def Dataset.get_dataset (d : Dataset) (n : String) : Option Dataset :=
  d.datasets.find? (fun c => c.name == n)

/-- Shallow direct-child Datapoint lookup (`get_datapoint`, spec §4.3). -/
def Dataset.get_datapoint (d : Dataset) (n : String) : Option Datapoint :=
  d.datapoints.find? (fun p => p.name == n)

def Database.get_dataset (db : Database) (n : String) : Option Dataset :=
  db.datasets.find? (fun c => c.name == n)

/-- The node reached from `d` by following a list of child-Dataset names. -/
def subtreeAt (d : Dataset) : List String → Option Dataset
  | [] => some d
  | s :: rest => (d.get_dataset s).bind (fun c => subtreeAt c rest)

/-- The node reached from the Database root along `first :: rest`. -/
def dbSubtreeAt (db : Database) (first : String) (rest : List String) : Option Dataset :=
  (db.get_dataset first).bind (fun c => subtreeAt c rest)

-- ### Claim C1 — ancestor-chain datapoint inheritance

/-- Modelled from the spec: `recursively_get_datapoints` on the node reached
from `d` by the given path (spec §4.4): the result seen at that node is the
node's own direct datapoints prefixed by everything already visible at its
parent, i.e. ancestors' datapoints flow down, in path order, each level in
creation order. -/
def Dataset.recursively_get_datapoints (d : Dataset) : List String → Option (List Datapoint)
  | [] => some d.datapoints
  | s :: rest => (d.get_dataset s).bind (fun c =>
      (c.recursively_get_datapoints rest).map (fun l => d.datapoints ++ l))

/-- `recursively_get_datapoints` called on the node addressed by
`first :: rest` from the Database root; the Database itself owns no
datapoints, so the chain starts contributing at the first Dataset. -/
def Database.recursively_get_datapoints (db : Database) (first : String)
    (rest : List String) : Option (List Datapoint) :=
  (db.get_dataset first).bind (fun c => c.recursively_get_datapoints rest)

/-- The direct datapoints of an optional node (empty when absent). -/
def optDatapoints : Option Dataset → List Datapoint
  | none => []
  | some d => d.datapoints

theorem mem_optDatapoints (o : Option Dataset) (x : Datapoint) :
    x ∈ optDatapoints o ↔ ∃ m, o = some m ∧ x ∈ m.datapoints := by
  cases o <;> simp [optDatapoints]

theorem recursively_get_datapoints_eq_flatMap :
    ∀ (p : List String) (d : Dataset) (L : List Datapoint),
      d.recursively_get_datapoints p = some L →
      L = (List.range (p.length + 1)).flatMap
        (fun i => optDatapoints (subtreeAt d (p.take i)))
  | [], d, L, h => by
      simp only [Dataset.recursively_get_datapoints, Option.some_inj] at h
      subst h
      simp [subtreeAt, optDatapoints, List.range_succ]
  | s :: rest, d, L, h => by
      simp only [Dataset.recursively_get_datapoints, Option.bind_eq_some] at h
      obtain ⟨c, hc, h⟩ := h
      rw [Option.map_eq_some'] at h
      obtain ⟨L', hL', rfl⟩ := h
      have ih := recursively_get_datapoints_eq_flatMap rest c L' hL'
      rw [List.length_cons, List.range_succ_eq_map, List.flatMap_cons]
      have h0 : (s :: rest).take 0 = [] := rfl
      rw [h0]
      have hsub : subtreeAt d [] = some d := rfl
      rw [hsub]
      congr 1
      rw [List.flatMap_map, ih]
      apply List.flatMap_congr
      intro i _
      have : (s :: rest).take (i + 1) = s :: rest.take i := rfl
      simp [Function.comp, this, subtreeAt, hc]

theorem mem_prefix_flatMap (d : Dataset) (p : List String) (x : Datapoint) :
    x ∈ (List.range (p.length + 1)).flatMap
        (fun i => optDatapoints (subtreeAt d (p.take i))) ↔
      ∃ i, i ≤ p.length ∧ ∃ m, subtreeAt d (p.take i) = some m ∧ x ∈ m.datapoints := by
  simp [List.mem_flatMap, List.mem_range, Nat.lt_succ_iff, mem_optDatapoints]

/-- **C1.** For the node `n` addressed by the path `first :: rest` from the
Database root, `recursively_get_datapoints` returns exactly the
concatenation, in root-to-`n` path order, of the direct datapoint lists of
the Datasets on the path (each list in creation order, since children are
only appended); the Database root contributes nothing (it owns no
datapoints), and a datapoint appears in the result iff it is a direct
datapoint of one of the path's nodes — so datapoints created under a
descendant of `n` or under an unrelated branch never appear. -/
theorem recursively_get_datapoints_chain (db : Database) (first : String)
    (rest : List String) (L : List Datapoint)
    (h : db.recursively_get_datapoints first rest = some L) :
    L = (List.range (rest.length + 1)).flatMap
        (fun i => optDatapoints (dbSubtreeAt db first (rest.take i))) ∧
    ∀ x, x ∈ L ↔ ∃ i, i ≤ rest.length ∧ ∃ m,
      dbSubtreeAt db first (rest.take i) = some m ∧ x ∈ m.datapoints := by
  simp only [Database.recursively_get_datapoints, Option.bind_eq_some] at h
  obtain ⟨c, hc, hL⟩ := h
  have hsub : ∀ q, dbSubtreeAt db first q = subtreeAt c q := by
    intro q; simp [dbSubtreeAt, hc]
  have heq := recursively_get_datapoints_eq_flatMap rest c L hL
  constructor
  · rw [heq]
    apply List.flatMap_congr
    intro i _
    rw [hsub]
  · intro x
    rw [heq, mem_prefix_flatMap]
    constructor
    · rintro ⟨i, hi, m, hm, hx⟩
      exact ⟨i, hi, m, by rw [hsub]; exact hm, hx⟩
    · rintro ⟨i, hi, m, hm, hx⟩
      exact ⟨i, hi, m, by rw [← hsub]; exact hm, hx⟩

/-- Witness for C1: in `root → A → B` with a datapoint `p` directly under
`A` and a datapoint `q` directly under `B`, the view at `B` is `[p, q]` and
it equals the chain concatenation computed from the prefixes of the path,
while the view at `A` is `[p]` — the descendant's `q` does not flow up. -/
theorem recursively_get_datapoints_chain_witness :
    ([⟨"p", [], []⟩, ⟨"q", [], []⟩] : List Datapoint) =
      (List.range 2).flatMap (fun i => optDatapoints (dbSubtreeAt
        ⟨[Dataset.mk "A" [] [] [Dataset.mk "B" [] [] [] [⟨"q", [], []⟩]] [⟨"p", [], []⟩]]⟩
        "A" (["B"].take i))) ∧
    (Database.recursively_get_datapoints
      ⟨[Dataset.mk "A" [] [] [Dataset.mk "B" [] [] [] [⟨"q", [], []⟩]] [⟨"p", [], []⟩]]⟩
      "A" []) = some [⟨"p", [], []⟩] :=
  ⟨(recursively_get_datapoints_chain
      ⟨[Dataset.mk "A" [] [] [Dataset.mk "B" [] [] [] [⟨"q", [], []⟩]] [⟨"p", [], []⟩]]⟩
      "A" ["B"] [⟨"p", [], []⟩, ⟨"q", [], []⟩] rfl).1, rfl⟩

-- ### Claim C8 — deep path resolution

/-- Modelled from the spec: segment-by-segment walk of resolved child
Datasets (spec §4.2), failing fast with `NotFoundError` naming the first
unresolved segment. -/
def resolveSegs : Dataset → List String → Except HardsError Dataset
  | d, [] => .ok d
  | d, s :: rest =>
      match d.get_dataset s with
      | some c => resolveSegs c rest
      | none => .error (.notFound s)

/-- Split a character list on a separator character; splitting the empty
list yields one empty segment, exactly like Python's `str.split(sep)` /
Lean's `String.splitOn`. -/
def splitChars (sep : Char) : List Char → List (List Char)
  | [] => [[]]
  | c :: rest =>
      match splitChars sep rest with
      | [] => if c == sep then [[], []] else [[c]]
      | g :: gs => if c == sep then [] :: g :: gs else (c :: g) :: gs

/-- The path string split on the hierarchy separator `/` into its ordered
segment names. -/
def splitPath (s : String) : List String :=
  (splitChars '/' s.data).map (fun l => String.mk l)

/-- Modelled from the spec: `recursively_get_dataset(path)` splits the path
string on the hierarchy separator `/` and walks the segments (spec §4.2). -/
def Dataset.recursively_get_dataset (d : Dataset) (path : String) :
    Except HardsError Dataset :=
  resolveSegs d (splitPath path)

theorem resolveSegs_ok_iff :
    ∀ (segs : List String) (d n : Dataset),
      resolveSegs d segs = .ok n ↔ subtreeAt d segs = some n
  | [], d, n => by simp [resolveSegs, subtreeAt]
  | s :: rest, d, n => by
      cases hc : d.get_dataset s with
      | none => simp [resolveSegs, subtreeAt, hc]
      | some c =>
          simp only [resolveSegs, subtreeAt, hc, Option.bind_some]
          exact resolveSegs_ok_iff rest c n

theorem resolveSegs_error_first :
    ∀ (segs : List String) (d : Dataset) (e : HardsError),
      resolveSegs d segs = .error e →
      ∃ pre s suf m, segs = pre ++ s :: suf ∧ subtreeAt d pre = some m ∧
        m.get_dataset s = none ∧ e = .notFound s
  | [], _, _, h => by simp [resolveSegs] at h
  | s :: rest, d, e, h => by
      cases hc : d.get_dataset s with
      | none =>
          simp only [resolveSegs, hc] at h
          injection h with h
          exact ⟨[], s, rest, d, rfl, rfl, hc, h.symm⟩
      | some c =>
          simp only [resolveSegs, hc] at h
          obtain ⟨pre, s', suf, m, hsegs, hsub, hget, he⟩ :=
            resolveSegs_error_first rest c e h
          exact ⟨s :: pre, s', suf, m, by simp [hsegs],
            by simp [subtreeAt, hc, hsub], hget, he⟩

/-- **C8.** Deep resolution from a start node splits the path string on `/`
and walks children segment by segment: it returns `ok n` exactly when every
segment matches (i.e. when the walked chain reaches `n`); on failure the
error is `NotFoundError` naming the first unresolved segment — the prefix
before it fully resolves and the failing segment has no matching child —
and the error never depends on the segments after the failing one.  Child
matching is exact (the matched child's name equals the segment), hence
case-sensitive. -/
theorem recursively_get_dataset_resolution (d : Dataset) (path : String) :
    (∀ n, d.recursively_get_dataset path = .ok n ↔
      subtreeAt d (splitPath path) = some n) ∧
    (∀ e, d.recursively_get_dataset path = .error e →
      ∃ pre s suf m, splitPath path = pre ++ s :: suf ∧
        subtreeAt d pre = some m ∧ m.get_dataset s = none ∧ e = .notFound s) ∧
    (∀ (m : Dataset) (s : String) (r r' : List String), m.get_dataset s = none →
      resolveSegs m (s :: r) = resolveSegs m (s :: r')) ∧
    (∀ (m : Dataset) (s : String) (n : Dataset), m.get_dataset s = some n →
      n.name = s) := by
  refine ⟨fun n => resolveSegs_ok_iff _ d n,
    fun e => resolveSegs_error_first _ d e, fun m s r r' hnone => ?_, fun m s n hsome => ?_⟩
  · simp [resolveSegs, hnone]
  · have := List.find?_some hsome
    simpa using this

/-- Witness for C8, mirroring the pi-approximation example: resolving
`"initial_random/full_random"` succeeds with the nested dataset, and
resolving `"initial_random/missing/deeper"` fails naming `"missing"`. -/
theorem recursively_get_dataset_resolution_witness :
    (Dataset.recursively_get_dataset
        (Dataset.mk "root" [] []
          [Dataset.mk "initial_random" [] [] [Dataset.mk "full_random" [] [] [] []] []] [])
        "initial_random/full_random" = .ok (Dataset.mk "full_random" [] [] [] [])) ∧
    (Dataset.recursively_get_dataset
        (Dataset.mk "root" [] []
          [Dataset.mk "initial_random" [] [] [Dataset.mk "full_random" [] [] [] []] []] [])
        "initial_random/missing/deeper" = .error (.notFound "missing")) := by
  have h := recursively_get_dataset_resolution
    (Dataset.mk "root" [] []
      [Dataset.mk "initial_random" [] [] [Dataset.mk "full_random" [] [] [] []] []] [])
    "initial_random/full_random"
  exact ⟨(h.1 (Dataset.mk "full_random" [] [] [] [])).mpr rfl, rfl⟩

-- ### Claim C5 — independent sibling namespaces

/-- A freshly created Dataset: empty data, files and children (spec §4.3:
"persists the new node's initial (empty) state"). -/
def emptyDataset (n : String) : Dataset :=
  .mk n [] [] [] []

/-- Does `d` already own a direct child Dataset of this name? -/
def hasChildDataset (d : Dataset) (n : String) : Bool :=
  d.datasets.any (fun c => c.name == n)

/-- Does `d` already own a direct child Datapoint of this name? -/
def hasChildDatapoint (d : Dataset) (n : String) : Bool :=
  d.datapoints.any (fun p => p.name == n)

/-- Modelled from the spec: `create_dataset(name)` (spec §4.3) validates the
name, checks uniqueness against the *Dataset* namespace only, and appends
the new empty child. -/
def Dataset.create_dataset (d : Dataset) (n : String) : Except HardsError Dataset :=
  if !validate n then .error (.invalidName n)
  else if hasChildDataset d n then .error (.nameConflict n)
  else .ok (.mk d.name d.data d.files (d.datasets ++ [emptyDataset n]) d.datapoints)

/-- Modelled from the spec: `create_datapoint(name)` (spec §4.3) validates
the name, checks uniqueness against the *Datapoint* namespace only, and
appends the new empty leaf. -/
def Dataset.create_datapoint (d : Dataset) (n : String) : Except HardsError Dataset :=
  if !validate n then .error (.invalidName n)
  else if hasChildDatapoint d n then .error (.nameConflict n)
  else .ok (.mk d.name d.data d.files d.datasets (d.datapoints ++ [⟨n, [], []⟩]))

/-- `create_dataset` on the Database root, same namespace rule. -/
def Database.create_dataset (db : Database) (n : String) : Except HardsError Database :=
  if !validate n then .error (.invalidName n)
  else if db.datasets.any (fun c => c.name == n) then .error (.nameConflict n)
  else .ok ⟨db.datasets ++ [emptyDataset n]⟩

/-- **C5.** For a valid name `x`: `create_dataset x` fails with
`NameConflictError` iff a child *Dataset* named `x` already exists
(otherwise it succeeds, appending the new child), and `create_datapoint x`
fails with `NameConflictError` iff a child *Datapoint* named `x` already
exists (otherwise it succeeds) — in particular a Datapoint named `x` can be
created next to a Dataset named `x`, because the two namespaces are checked
independently. -/
theorem create_namespace_independence (d : Dataset) (x : String)
    (hv : validate x = true) :
    (d.create_dataset x = .error (.nameConflict x) ↔ hasChildDataset d x = true) ∧
    (hasChildDataset d x = false → d.create_dataset x =
      .ok (.mk d.name d.data d.files (d.datasets ++ [emptyDataset x]) d.datapoints)) ∧
    (d.create_datapoint x = .error (.nameConflict x) ↔ hasChildDatapoint d x = true) ∧
    (hasChildDatapoint d x = false → d.create_datapoint x =
      .ok (.mk d.name d.data d.files d.datasets (d.datapoints ++ [⟨x, [], []⟩]))) := by
  refine ⟨?_, fun hno => ?_, ?_, fun hno => ?_⟩
  · cases hds : hasChildDataset d x <;>
      simp [Dataset.create_dataset, hv, hds]
  · simp [Dataset.create_dataset, hv, hno]
  · cases hdp : hasChildDatapoint d x <;>
      simp [Dataset.create_datapoint, hv, hdp]
  · simp [Dataset.create_datapoint, hv, hno]

/-- Witness for C5, the concrete scenario of spec §8: on a parent already
owning Dataset `"x"`, creating Dataset `"x"` again raises the name
conflict, while creating Datapoint `"x"` succeeds. -/
theorem create_namespace_independence_witness :
    (Dataset.mk "parent" [] [] [emptyDataset "x"] []).create_dataset "x"
      = .error (.nameConflict "x") ∧
    (Dataset.mk "parent" [] [] [emptyDataset "x"] []).create_datapoint "x"
      = .ok (Dataset.mk "parent" [] [] [emptyDataset "x"] [⟨"x", [], []⟩]) := by
  have h := create_namespace_independence
    (Dataset.mk "parent" [] [] [emptyDataset "x"] []) "x" (by decide)
  exact ⟨h.1.mpr rfl, h.2.2.2 rfl⟩

-- ### Claim C9 — per-level uniqueness only: identical names can nest

/-- Replace the child Dataset named `n` of `d` by `c'`. -/
def replaceChildDataset (d : Dataset) (n : String) (c' : Dataset) : Dataset :=
  .mk d.name d.data d.files
    (d.datasets.map (fun c => if c.name == n then c' else c)) d.datapoints

/-- Apply a mutation `f` to the node reached from `d` along the path,
rebuilding the tree on the way back up — the model of calling a mutating
method on a deeply nested node handle. -/
def updateAt (f : Dataset → Except HardsError Dataset) :
    Dataset → List String → Except HardsError Dataset
  | d, [] => f d
  | d, s :: rest =>
      match d.get_dataset s with
      | none => .error (.notFound s)
      | some c => (updateAt f c rest).map (fun c' => replaceChildDataset d s c')

/-- `create_dataset n` invoked on the node at `path` below `d`. -/
def create_dataset_at (d : Dataset) (path : List String) (n : String) :
    Except HardsError Dataset :=
  updateAt (fun m => m.create_dataset n) d path

/-- The chain of `k + 1` nested Datasets all named `n`, each the sole child
of the previous one; the innermost is empty. -/
def nestedChain (n : String) : Nat → Dataset
  | 0 => emptyDataset n
  | k + 1 => .mk n [] [] [nestedChain n k] []

theorem nestedChain_name (n : String) (k : Nat) : (nestedChain n k).name = n := by
  cases k <;> rfl

theorem replaceChild_nestedChain (n : String) (k : Nat) (c' : Dataset) :
    replaceChildDataset (nestedChain n (k + 1)) n c' = Dataset.mk n [] [] [c'] [] := by
  cases k with
  | zero =>
      simp [nestedChain, emptyDataset, replaceChildDataset, Dataset.name,
        Dataset.data, Dataset.files, Dataset.datasets, Dataset.datapoints]
  | succ j =>
      simp [nestedChain, replaceChildDataset, Dataset.name, Dataset.data,
        Dataset.files, Dataset.datasets, Dataset.datapoints]

/-- **C9.** Name uniqueness is only enforced among siblings of one
namespace, never along a path: on the chain of `k + 1` nested Datasets all
named `n`, calling `create_dataset n` on the innermost one (whose own name
is `n` and which has no children) succeeds and yields the chain extended by
one more level — so identically-named Datasets nest to arbitrary depth. -/
theorem nested_same_name_datasets (n : String) (hv : validate n = true) :
    ∀ k, create_dataset_at (nestedChain n k) (List.replicate k n) n
      = .ok (nestedChain n (k + 1)) := by
  intro k
  induction k with
  | zero =>
      simp [create_dataset_at, updateAt, Dataset.create_dataset, hv, hasChildDataset,
        nestedChain, emptyDataset, Dataset.name, Dataset.data, Dataset.files,
        Dataset.datasets, Dataset.datapoints]
  | succ k ih =>
      have hb : ((nestedChain n k).name == n) = true := by simp [nestedChain_name]
      have hget : (nestedChain n (k + 1)).get_dataset n = some (nestedChain n k) := by
        simp only [nestedChain, Dataset.get_dataset, Dataset.datasets]
        simp [List.find?, hb]
      rw [List.replicate_succ]
      simp only [create_dataset_at] at ih ⊢
      simp only [updateAt, hget]
      rw [ih]
      show Except.ok (replaceChildDataset (nestedChain n (k + 1)) n (nestedChain n (k + 1)))
        = Except.ok (nestedChain n (k + 2))
      rw [replaceChild_nestedChain]
      rfl

/-- Witness for C9, mirroring the sub-dataset notebook: two levels of
`"sub_dataset"` extended by a third. -/
theorem nested_same_name_datasets_witness :
    create_dataset_at (nestedChain "sub_dataset" 2) (List.replicate 2 "sub_dataset")
      "sub_dataset" = .ok (nestedChain "sub_dataset" 3) :=
  nested_same_name_datasets "sub_dataset" (by decide) 2

-- ### Claim C4 — the file store: add_file / get_file

/-- The base name of a source location: its last `/`-separated component
(the default attachment name when no `name` is given). -/
def baseName (p : String) : String :=
  (splitPath p).getLastD ""

/-- Modelled from the spec: `add_file(sourceLocation, name=None)` (spec
§4.5) copies the byte content found at `sourceLocation` in the external
filesystem `fs` into the node's managed `files` under `name` (defaulting to
the source's base name), replacing any previous content stored under that
name.  The name is validated like any other entity name (spec §4.1). -/
def add_file (files fs : List (String × Bytes)) (src : String)
    (name : Option String) : Except HardsError (List (String × Bytes)) :=
  match getKey fs src with
  | none => .error (.notFound src)
  | some content =>
      let n := name.getD (baseName src)
      if !validate n then .error (.invalidName n)
      else .ok (setKey files n content)

/-- Modelled from the spec: `get_file(name)` returns the stored copy's
content, or nothing when absent (spec §4.5). -/
def get_file (files : List (String × Bytes)) (n : String) : Option Bytes :=
  getKey files n

/-- **C4.** When the source location holds `content` and the effective name
(the `name` argument, or the source's base name when omitted) is valid,
`add_file` succeeds and stores a copy of `content` under that name —
replacing any file previously stored under it — so that `get_file` on that
name returns exactly `content`, while every other stored file is left
untouched. -/
theorem add_file_stores_copy (files fs : List (String × Bytes)) (src : String)
    (name : Option String) (content : Bytes)
    (hsrc : getKey fs src = some content)
    (hv : validate (name.getD (baseName src)) = true) :
    add_file files fs src name
      = .ok (setKey files (name.getD (baseName src)) content) ∧
    get_file (setKey files (name.getD (baseName src)) content)
      (name.getD (baseName src)) = some content ∧
    ∀ m, m ≠ name.getD (baseName src) →
      get_file (setKey files (name.getD (baseName src)) content) m
        = get_file files m := by
  refine ⟨by simp [add_file, hsrc, hv], getKey_setKey_self _ _ _,
    fun m hm => getKey_setKey_ne _ _ _ _ hm⟩

/-- Witness for C4, mirroring the introduction notebook: adding
`project_dir/my_file.txt` without a name stores it under `"my_file.txt"`,
overwriting the stale bytes previously stored under that name while leaving
the other attachment alone, and `get_file` reads back the source's bytes. -/
theorem add_file_stores_copy_witness :
    add_file [("my_file.txt", [0]), ("other.txt", [7])]
        [("project_dir/my_file.txt", [1, 2, 3])] "project_dir/my_file.txt" none
      = .ok [("my_file.txt", [1, 2, 3]), ("other.txt", [7])] ∧
    get_file [("my_file.txt", [1, 2, 3]), ("other.txt", [7])] "my_file.txt"
      = some [1, 2, 3] ∧
    get_file [("my_file.txt", [1, 2, 3]), ("other.txt", [7])] "other.txt"
      = get_file [("my_file.txt", [0]), ("other.txt", [7])] "other.txt" := by
  have h := add_file_stores_copy [("my_file.txt", [0]), ("other.txt", [7])]
    [("project_dir/my_file.txt", [1, 2, 3])] "project_dir/my_file.txt" none [1, 2, 3]
    rfl (by decide)
  exact ⟨h.1, h.2.1, h.2.2 "other.txt" (by decide)⟩

-- ### The system state: external filesystem plus database tree

/-- The whole world a run of the engine touches: the external filesystem
(source files owned by the caller) and the database tree.  Spec §2: every
mutating call is reflected to the persistence layer before returning, so
the tree in `db` is also the persisted state. -/
structure World where
  extFS : List (String × Bytes)
  db : Database

/-- The mutating calls of the external interface (spec §6), each addressing
its target node by the path from the Database root (`first :: rest` names
Datasets; `dp` optionally selects a child Datapoint of the target). -/
inductive Op where
  | createRootDataset (name : String)
  | createDataset (first : String) (rest : List String) (name : String)
  | createDatapoint (first : String) (rest : List String) (name : String)
  | addDataAt (first : String) (rest : List String) (dp : Option String)
      (m : List (String × JValue))
  | addFileAt (first : String) (rest : List String) (dp : Option String)
      (src : String) (fname : Option String)

/-- Apply a fallible mutation to the child Datapoint named `pn` of `d`. -/
def updateDatapointIn (d : Dataset) (pn : String)
    (f : Datapoint → Except HardsError Datapoint) : Except HardsError Dataset :=
  match d.get_datapoint pn with
  | none => .error (.notFound pn)
  | some p => (f p).map (fun p' => Dataset.mk d.name d.data d.files d.datasets
      (d.datapoints.map (fun q => if q.name == pn then p' else q)))

/-- `add_data` on the addressed node: the Dataset itself, or one of its
Datapoints. -/
def nodeAddData (dp : Option String) (m : List (String × JValue)) (d : Dataset) :
    Except HardsError Dataset :=
  match dp with
  | none => .ok (Dataset.mk d.name (add_data d.data m) d.files d.datasets d.datapoints)
  | some pn => updateDatapointIn d pn (fun p => .ok ⟨p.name, add_data p.data m, p.files⟩)

/-- `add_file` on the addressed node: the Dataset itself, or one of its
Datapoints; reads the source bytes from the external filesystem `fs`. -/
def nodeAddFile (fs : List (String × Bytes)) (dp : Option String) (src : String)
    (fname : Option String) (d : Dataset) : Except HardsError Dataset :=
  match dp with
  | none => (add_file d.files fs src fname).map
      (fun nf => Dataset.mk d.name d.data nf d.datasets d.datapoints)
  | some pn => updateDatapointIn d pn
      (fun p => (add_file p.files fs src fname).map (fun nf => ⟨p.name, p.data, nf⟩))

/-- Apply a fallible mutation to the Dataset at `first :: rest` below the
Database root, rebuilding the tree on the way back up. -/
def updateDb (db : Database) (first : String) (rest : List String)
    (g : Dataset → Except HardsError Dataset) : Except HardsError Database :=
  match db.get_dataset first with
  | none => .error (.notFound first)
  | some c => (updateAt g c rest).map (fun c' =>
      ⟨db.datasets.map (fun x => if x.name == first then c' else x)⟩)

/-- One mutating call of the interface, as a transition on the world; the
external filesystem is only ever read, the tree only ever rebuilt through
validated updates. -/
def applyOp (w : World) : Op → Except HardsError World
  | .createRootDataset n => (w.db.create_dataset n).map (fun db => ⟨w.extFS, db⟩)
  | .createDataset f r n =>
      (updateDb w.db f r (fun d => d.create_dataset n)).map (fun db => ⟨w.extFS, db⟩)
  | .createDatapoint f r n =>
      (updateDb w.db f r (fun d => d.create_datapoint n)).map (fun db => ⟨w.extFS, db⟩)
  | .addDataAt f r dp m =>
      (updateDb w.db f r (nodeAddData dp m)).map (fun db => ⟨w.extFS, db⟩)
  | .addFileAt f r dp src fname =>
      (updateDb w.db f r (nodeAddFile w.extFS dp src fname)).map
        (fun db => ⟨w.extFS, db⟩)

/-- A mutating call as observed by the caller: the world afterwards plus
the error, if any — on an error the world handed back is the input world,
since all validation precedes any update. -/
def applyOpE (w : World) (op : Op) : World × Option HardsError :=
  match applyOp w op with
  | .ok w' => (w', none)
  | .error e => (w, some e)

/-- Run a sequence of mutating calls, succeeding only if every call does. -/
def runOps : World → List Op → Option World
  | w, [] => some w
  | w, op :: rest =>
      match applyOp w op with
      | .ok w' => runOps w' rest
      | .error _ => none

-- ### Claim C6 — failure leaves the persisted state untouched

/-- **C6.** A mutating call that fails with any error leaves the world —
and hence the persisted state — exactly as it was: no half-created child,
no half-merged data, no partial file content is observable. -/
theorem failed_op_leaves_state_unchanged (w : World) (op : Op) (e : HardsError)
    (h : (applyOpE w op).2 = some e) : (applyOpE w op).1 = w := by
  cases happ : applyOp w op with
  | ok w' => simp [applyOpE, happ] at h
  | error e' => simp [applyOpE, happ]

/-- Witness for C6: creating a second root Dataset `"x"` fails with the
name conflict and the world is handed back unchanged. -/
theorem failed_op_leaves_state_unchanged_witness :
    (applyOpE ⟨[], ⟨[emptyDataset "x"]⟩⟩ (.createRootDataset "x")).1
      = ⟨[], ⟨[emptyDataset "x"]⟩⟩ :=
  failed_op_leaves_state_unchanged ⟨[], ⟨[emptyDataset "x"]⟩⟩ (.createRootDataset "x")
    (.nameConflict "x") rfl

-- ### Claim C10 — add_file never touches the caller's source file

theorem add_file_ok_src (files fs : List (String × Bytes)) (src : String)
    (name : Option String) (nf : List (String × Bytes))
    (h : add_file files fs src name = .ok nf) : ∃ c, getKey fs src = some c := by
  cases hc : getKey fs src with
  | none => simp [add_file, hc] at h
  | some c => exact ⟨c, rfl⟩

theorem nodeAddFile_ok_src (fs : List (String × Bytes)) (dp : Option String)
    (src : String) (fname : Option String) (d d' : Dataset)
    (h : nodeAddFile fs dp src fname d = .ok d') : ∃ c, getKey fs src = some c := by
  cases dp with
  | none =>
      simp only [nodeAddFile] at h
      cases haf : add_file d.files fs src fname with
      | ok nf => exact add_file_ok_src _ _ _ _ _ haf
      | error e => rw [haf] at h; exact absurd h (by simp [Except.map])
  | some pn =>
      simp only [nodeAddFile, updateDatapointIn] at h
      split at h
      · simp at h
      · rename_i p hp
        cases haf : add_file p.files fs src fname with
        | ok nf => exact add_file_ok_src _ _ _ _ _ haf
        | error e => rw [haf] at h; exact absurd h (by simp [Except.map])

theorem updateAt_ok_exists (g : Dataset → Except HardsError Dataset) :
    ∀ (p : List String) (d d' : Dataset), updateAt g d p = .ok d' →
      ∃ m m', g m = .ok m'
  | [], d, d', h => ⟨d, d', h⟩
  | s :: rest, d, d', h => by
      rw [updateAt] at h
      split at h
      · simp at h
      · rename_i c hc
        cases hu : updateAt g c rest with
        | ok c' => exact updateAt_ok_exists g rest c c' hu
        | error e => rw [hu] at h; exact absurd h (by simp [Except.map])

theorem updateDb_ok_exists (db : Database) (first : String) (rest : List String)
    (g : Dataset → Except HardsError Dataset) (db' : Database)
    (h : updateDb db first rest g = .ok db') : ∃ m m', g m = .ok m' := by
  simp only [updateDb] at h
  split at h
  · simp at h
  · rename_i c hc
    cases hu : updateAt g c rest with
    | ok c' => exact updateAt_ok_exists g rest c c' hu
    | error e => rw [hu] at h; exact absurd h (by simp [Except.map])

/-- **C10.** A successful `add_file` call never modifies, truncates or
removes the caller's source file: afterwards the external filesystem is
exactly as before, and in particular the source file still exists there
with its content unchanged (its bytes were copied, not moved). -/
theorem add_file_preserves_source (w : World) (first : String) (rest : List String)
    (dp : Option String) (src : String) (fname : Option String) (w' : World)
    (h : applyOp w (.addFileAt first rest dp src fname) = .ok w') :
    w'.extFS = w.extFS ∧
    ∃ content, getKey w.extFS src = some content ∧
      getKey w'.extFS src = some content := by
  simp only [applyOp] at h
  cases hu : updateDb w.db first rest (nodeAddFile w.extFS dp src fname) with
  | error e => rw [hu] at h; exact absurd h (by simp [Except.map])
  | ok db' =>
      rw [hu] at h
      have hw' : w' = ⟨w.extFS, db'⟩ := by
        simpa [Except.map] using h.symm
      obtain ⟨m, m', hm⟩ := updateDb_ok_exists _ _ _ _ _ hu
      obtain ⟨c, hc⟩ := nodeAddFile_ok_src _ _ _ _ _ _ hm
      subst hw'
      exact ⟨rfl, c, hc, hc⟩

/-- Witness for C10: after adding `proj/f.txt` onto Dataset `"ds"`, the
external filesystem still holds the source bytes. -/
theorem add_file_preserves_source_witness :
    (World.mk [("proj/f.txt", [9, 8])] ⟨[Dataset.mk "ds" [] [] [] []
        , emptyDataset "ds2"]⟩).extFS
      = (World.mk [("proj/f.txt", [9, 8])] ⟨[Dataset.mk "ds" [] [] [] []
        , emptyDataset "ds2"]⟩).extFS ∧
    ∃ content,
      getKey (World.mk [("proj/f.txt", [9, 8])] ⟨[Dataset.mk "ds" [] [] [] []
        , emptyDataset "ds2"]⟩).extFS "proj/f.txt" = some content ∧
      getKey (World.mk [("proj/f.txt", [9, 8])] ⟨[Dataset.mk "ds" [] [] [] []
        , emptyDataset "ds2"]⟩).extFS "proj/f.txt" = some content :=
  add_file_preserves_source
    (World.mk [("proj/f.txt", [9, 8])] ⟨[Dataset.mk "ds" [] [] [] [], emptyDataset "ds2"]⟩)
    "ds" [] none "proj/f.txt" (some "f.txt")
    (World.mk [("proj/f.txt", [9, 8])] ⟨[Dataset.mk "ds" [] [("f.txt", [9, 8])] [] []
      , emptyDataset "ds2"]⟩) rfl

-- ### Claim C3 — persistence: close, re-open, read back

/-- Modelled from the spec: the on-disk layout of one node (spec §6): a
directory holding the node's direct `data` (the metadata file), its direct
file attachments by name, and one subdirectory per child, tagged with the
internal marker distinguishing Datapoint directories from Dataset
directories (`true` = Datapoint), in persisted creation order. -/
inductive DiskNode where
  | mk (data : List (String × JValue)) (files : List (String × Bytes))
      (children : List (String × Bool × DiskNode)) : DiskNode

/-- Serialise a Dataset and its whole subtree into the on-disk layout. -/
def serializeDs : Dataset → DiskNode
  | .mk _ dt fs ds ps =>
      .mk dt fs ((ds.attach.map (fun c => (c.1.name, false, serializeDs c.1))) ++
        (ps.map (fun p => (p.name, true, .mk p.data p.files []))))
decreasing_by
  cases c with
  | mk c hc =>
      have := List.sizeOf_lt_of_mem hc
      simp only [Dataset.mk.sizeOf_spec]
      omega

/-- Serialise the whole Database: the root directory holds no data or files
of its own, only the top-level Dataset directories. -/
def serializeDb (db : Database) : DiskNode :=
  .mk [] [] (db.datasets.map (fun c => (c.name, false, serializeDs c)))

mutual

/-- Re-hydrate a Dataset named `n` from its on-disk directory; fails
(`CorruptStateError`) when a Datapoint-marked subdirectory itself has
subdirectories. -/
def deserializeDs (n : String) : DiskNode → Option Dataset
  | .mk dt fs children =>
      (deserializeChildren children).map (fun pr => Dataset.mk n dt fs pr.1 pr.2)

/-- Split the marker-tagged child directories back into the Dataset
children and the Datapoint children, each list in stored order. -/
def deserializeChildren : List (String × Bool × DiskNode) → Option (List Dataset × List Datapoint)
  | [] => some ([], [])
  | (n, false, dn) :: rest =>
      (deserializeDs n dn).bind (fun d =>
        (deserializeChildren rest).map (fun pr => (d :: pr.1, pr.2)))
  | (n, true, .mk dt fs []) :: rest =>
      (deserializeChildren rest).map (fun pr => (pr.1, ⟨n, dt, fs⟩ :: pr.2))
  | (_, true, .mk _ _ (_ :: _)) :: _ => none

end

/-- Re-hydrate the whole Database from the root directory; a
Datapoint-marked directory at the root is malformed (the Database owns no
datapoints). -/
def deserializeDb (dn : DiskNode) : Option Database :=
  match dn with
  | .mk _ _ children =>
      match deserializeChildren children with
      | some (ds, []) => some ⟨ds⟩
      | _ => none

theorem deserializeChildren_append (ds : List Dataset) (ps : List Datapoint)
    (ih : ∀ c ∈ ds, deserializeDs c.name (serializeDs c) = some c) :
    deserializeChildren ((ds.map (fun c => (c.name, false, serializeDs c))) ++
      (ps.map (fun p => (p.name, true, .mk p.data p.files [])))) = some (ds, ps) := by
  induction ds with
  | nil =>
      simp only [List.map_nil, List.nil_append]
      induction ps with
      | nil => rfl
      | cons p pr ihp =>
          simp only [List.map_cons, deserializeChildren, ihp, Option.map_some]
          rfl
  | cons c cr ihds =>
      have h1 := ih c (List.mem_cons_self c cr)
      have h2 := ihds (fun x hx => ih x (List.mem_cons_of_mem c hx))
      simp [deserializeChildren, h1, h2]

theorem deserialize_serialize : ∀ (d : Dataset),
    deserializeDs d.name (serializeDs d) = some d
  | .mk n dt fs ds ps => by
      have hch : ∀ c ∈ ds, deserializeDs c.name (serializeDs c) = some c := by
        intro c hc
        have : sizeOf c < sizeOf (Dataset.mk n dt fs ds ps) := by
          have := List.sizeOf_lt_of_mem hc
          simp only [Dataset.mk.sizeOf_spec]
          omega
        exact deserialize_serialize c
      show deserializeDs n (serializeDs (Dataset.mk n dt fs ds ps)) = _
      rw [serializeDs]
      have hattach : ds.attach.map (fun c => (c.1.name, false, serializeDs c.1))
          = ds.map (fun c => (c.name, false, serializeDs c)) := by
        simp
      rw [deserializeDs, hattach, deserializeChildren_append ds ps hch]
      rfl
termination_by d => sizeOf d

theorem deserializeDb_serializeDb (db : Database) :
    deserializeDb (serializeDb db) = some db := by
  obtain ⟨ds⟩ := db
  have h := deserializeChildren_append ds [] (fun c _ => deserialize_serialize c)
  simp only [List.map_nil, List.append_nil] at h
  simp only [serializeDb, deserializeDb, h]

/-- **C3.** After any sequence of successful mutating calls starting from
any world, the entire database tree can be re-hydrated from the persisted
on-disk layout alone, and the re-opened handle is the identical tree —
so resolving the same paths and reading back data and file contents
yields byte-identical results.  Every mutating call already returned with
the tree in this persisted form (the model's world is the write-through
persisted state, spec §2: no deferred writes). -/
theorem persistence_round_trip (w0 : World) (ops : List Op) (w : World)
    (_hrun : runOps w0 ops = some w) :
    deserializeDb (serializeDb w.db) = some w.db ∧
    ∀ db', deserializeDb (serializeDb w.db) = some db' →
      (∀ first rest, dbSubtreeAt db' first rest = dbSubtreeAt w.db first rest) ∧
      (∀ first rest, Database.recursively_get_datapoints db' first rest
        = Database.recursively_get_datapoints w.db first rest) := by
  refine ⟨deserializeDb_serializeDb w.db, fun db' hdb' => ?_⟩
  have : some db' = some w.db := by rw [← hdb', deserializeDb_serializeDb w.db]
  have heq : db' = w.db := by injection this
  subst heq
  exact ⟨fun _ _ => rfl, fun _ _ => rfl⟩

/-- Witness for C3, the round-trip of spec §8: create Dataset `"ds1"`, add
data `{"a": 1}`, add file `"f.txt"`; the persisted layout re-hydrates to
exactly the resulting tree. -/
theorem persistence_round_trip_witness :
    deserializeDb (serializeDb (World.mk [("proj/f.txt", [102, 33])]
        ⟨[Dataset.mk "ds1" [("a", JValue.num 1)] [("f.txt", [102, 33])] [] []]⟩).db)
      = some (World.mk [("proj/f.txt", [102, 33])]
        ⟨[Dataset.mk "ds1" [("a", JValue.num 1)] [("f.txt", [102, 33])] [] []]⟩).db :=
  (persistence_round_trip (World.mk [("proj/f.txt", [102, 33])] ⟨[]⟩)
    [.createRootDataset "ds1", .addDataAt "ds1" [] none [("a", JValue.num 1)],
      .addFileAt "ds1" [] none "proj/f.txt" (some "f.txt")]
    (World.mk [("proj/f.txt", [102, 33])]
      ⟨[Dataset.mk "ds1" [("a", JValue.num 1)] [("f.txt", [102, 33])] [] []]⟩)
    rfl).1

end HARDS
